import Mathlib

/-!
Verification of the `middleware` library's two core components against its
design document: the token-bucket rate limiter (`ratelimit.go`) and the
deadline-bounded request executor (`timeout.go`).

Times and durations are modelled as `Int` nanoseconds (Go's `time.Time`
difference / `time.Duration` are 64-bit nanosecond counts); counters are
`Int` (Go `int`).  Concurrency is shallowly embedded: the limiter is a pure
state-transition function, the lock discipline of `allow` is embedded as an
event trace, and the deadline executor's completion-vs-deadline race is a
parameter of the model.
-/

/-! ## Token bucket limiter: state and the `allow` operation (`ratelimit.go`) -/

/-- Embeds `bucket` from `ratelimit.go`: a token count and the start of the
current fixed window (`lastReset`), in nanoseconds. -/
structure Bucket where
  tokens : Int
  lastReset : Int
deriving Repr, DecidableEq

/-- Embeds the `rateLimiter` of `ratelimit.go` together with the two
configuration fields `allow` reads (`config.Max`, `config.Window`).
The Go `map[string]*bucket` is modelled as an association list. -/
structure RateLimiter where
  buckets : List (String × Bucket)
  max : Int
  window : Int
deriving Repr, DecidableEq

/-- Lookup of a key in the bucket directory (Go map read `rl.buckets[key]`). -/
def lookupB : List (String × Bucket) → String → Option Bucket
  | [], _ => none
  | (k', b) :: rest, k => if k' = k then some b else lookupB rest k

/-- Store of a bucket under a key (Go map write / in-place pointer update). -/
def setBucket : List (String × Bucket) → String → Bucket → List (String × Bucket)
  | [], k, b => [(k, b)]
  | (k', b') :: rest, k, b =>
      if k' = k then (k, b) :: rest else (k', b') :: setBucket rest k b

/-- Embeds `(*rateLimiter).allow` from `ratelimit.go` lines 186-220, with the
call's `time.Now()` reading passed in as `now`:
look up the bucket (creating it with `tokens = Max`, `lastReset = now` if
absent), lazily roll the window over when `now - lastReset >= Window`,
compute `resetTime = lastReset + Window`, then decrement and admit if
`tokens > 0`, otherwise deny with remaining `0`. -/
def allow (rl : RateLimiter) (key : String) (now : Int) :
    (Bool × Int × Int) × RateLimiter :=
  let b0 := (lookupB rl.buckets key).getD { tokens := rl.max, lastReset := now }
  let b1 := if now - b0.lastReset ≥ rl.window then
              { tokens := rl.max, lastReset := now } else b0
  let resetTime := b1.lastReset + rl.window
  if b1.tokens > 0 then
    ((true, b1.tokens - 1, resetTime),
      { rl with buckets := setBucket rl.buckets key { b1 with tokens := b1.tokens - 1 } })
  else
    ((false, 0, resetTime),
      { rl with buckets := setBucket rl.buckets key b1 })

/-- Iterated `allow` calls on one key at a list of successive clock readings,
returning the per-call results and the final limiter state. -/
def allowSeq (rl : RateLimiter) (key : String) : List Int →
    List (Bool × Int × Int) × RateLimiter
  | [] => ([], rl)
  | t :: ts =>
      let (r, rl') := allow rl key t
      let (rs, rl'') := allowSeq rl' key ts
      (r :: rs, rl'')

/-! ### Helper lemmas about the directory operations -/

theorem lookupB_setBucket_self (bs : List (String × Bucket)) (k : String) (b : Bucket) :
    lookupB (setBucket bs k b) k = some b := by
  induction bs with
  | nil => simp [setBucket, lookupB]
  | cons p rest ih =>
    by_cases h : p.1 = k
    · simp [setBucket, lookupB, h]
    · simp [setBucket, lookupB, h, ih]

theorem setBucket_self_eq (bs : List (String × Bucket)) (k : String) (b : Bucket)
    (h : lookupB bs k = some b) : setBucket bs k b = bs := by
  induction bs with
  | nil => simp [lookupB] at h
  | cons p rest ih =>
    obtain ⟨k', b'⟩ := p
    by_cases hk : k' = k
    · simp [lookupB, hk] at h
      simp [setBucket, hk, ← h]
    · simp [lookupB, hk] at h
      simp [setBucket, hk, ih h]

/-- C10. For a bucket inside its current window with zero tokens, `allow`
denies with `(false, 0, lastReset + window)` and leaves the limiter state
(token count, window start, and the whole directory) unchanged. -/
theorem allow_denied_frame (rl : RateLimiter) (key : String) (now : Int) (b : Bucket)
    (hfound : lookupB rl.buckets key = some b)
    (hwin : now - b.lastReset < rl.window)
    (htok : b.tokens = 0) :
    (allow rl key now).1 = (false, 0, b.lastReset + rl.window) ∧
    (allow rl key now).2 = rl := by
  have hnotroll : ¬ (now - b.lastReset ≥ rl.window) := by omega
  have hnotpos : ¬ (b.tokens > 0) := by omega
  constructor
  · simp [allow, hfound, hnotroll, hnotpos, htok]
  · simp [allow, hfound, hnotroll, hnotpos, setBucket_self_eq rl.buckets key b hfound]

/-- Witness for `allow_denied_frame` at a concrete exhausted bucket. -/
theorem allow_denied_frame_witness :
    (allow { buckets := [("k", { tokens := 0, lastReset := 5 })], max := 3,
             window := 100 } "k" 50).1 = (false, 0, 105) ∧
    (allow { buckets := [("k", { tokens := 0, lastReset := 5 })], max := 3,
             window := 100 } "k" 50).2 =
      { buckets := [("k", { tokens := 0, lastReset := 5 })], max := 3, window := 100 } :=
  allow_denied_frame
    { buckets := [("k", { tokens := 0, lastReset := 5 })], max := 3, window := 100 }
    "k" 50 { tokens := 0, lastReset := 5 } (by decide) (by decide) (by decide)


/-! ### Step lemmas for `allow` -/

/-- Inside the current window with `j > 0` tokens, `allow` admits, decrements,
and reports `lastReset + window` as the reset time. -/
theorem allow_step_pos (rl : RateLimiter) (k : String) (t j ls : Int)
    (hfound : lookupB rl.buckets k = some ⟨j, ls⟩)
    (hwin : t - ls < rl.window)
    (htok : 0 < j) :
    allow rl k t =
      ((true, j - 1, ls + rl.window),
       { rl with buckets := setBucket rl.buckets k ⟨j - 1, ls⟩ }) := by
  have hroll : ¬ (t - ls ≥ rl.window) := by omega
  simp [allow, hfound, hroll, htok]

/-- Inside the current window with tokens exhausted, `allow` denies and
rewrites the bucket with its unchanged value. -/
theorem allow_step_zero (rl : RateLimiter) (k : String) (t ls : Int)
    (hfound : lookupB rl.buckets k = some ⟨0, ls⟩)
    (hwin : t - ls < rl.window) :
    allow rl k t =
      ((false, 0, ls + rl.window),
       { rl with buckets := setBucket rl.buckets k ⟨0, ls⟩ }) := by
  have hroll : ¬ (t - ls ≥ rl.window) := by omega
  simp [allow, hfound, hroll]

/-- A fresh key creates a bucket at the call time and is admitted with
`max - 1` remaining, provided the configured `max` is positive. -/
theorem allow_fresh (rl : RateLimiter) (k : String) (t : Int)
    (hfresh : lookupB rl.buckets k = none)
    (hW : 0 < rl.window) (hM : 0 < rl.max) :
    allow rl k t =
      ((true, rl.max - 1, t + rl.window),
       { rl with buckets := setBucket rl.buckets k ⟨rl.max - 1, t⟩ }) := by
  have hroll : ¬ (t - t ≥ rl.window) := by omega
  simp [allow, hfresh, hroll, hM]

/-- Once the window has elapsed, `allow` rolls the window over to start at
the current call time and admits with `max - 1` remaining. -/
theorem allow_rollover (rl : RateLimiter) (k : String) (t j ls : Int)
    (hfound : lookupB rl.buckets k = some ⟨j, ls⟩)
    (hwin : t - ls ≥ rl.window)
    (hM : 0 < rl.max) :
    allow rl k t =
      ((true, rl.max - 1, t + rl.window),
       { rl with buckets := setBucket rl.buckets k ⟨rl.max - 1, t⟩ }) := by
  have hroll : t - (⟨j, ls⟩ : Bucket).lastReset ≥ rl.window := hwin
  simp [allow, hfound, hroll, hM]

/-- Draining lemma: starting from a bucket holding `j` tokens whose window
began at `t0`, a run of `j + 1` calls all inside the window admits the first
`j` with remaining `j-1, ..., 0` and denies the last, leaving a bucket with
`0` tokens and an unmoved window start. -/
theorem allowSeq_drain (k : String) (t0 : Int) :
    ∀ (j : Nat) (ts : List Int) (rl : RateLimiter),
    lookupB rl.buckets k = some ⟨(j : Int), t0⟩ →
    (∀ t ∈ ts, t0 ≤ t ∧ t < t0 + rl.window) →
    ts.length = j + 1 →
    (allowSeq rl k ts).1 =
      ((List.range j).map fun (i : Nat) =>
        (true, (j : Int) - 1 - (i : Int), t0 + rl.window)) ++
        [(false, 0, t0 + rl.window)] ∧
    (allowSeq rl k ts).2.max = rl.max ∧
    (allowSeq rl k ts).2.window = rl.window ∧
    lookupB (allowSeq rl k ts).2.buckets k = some ⟨0, t0⟩ := by
  intro j
  induction j with
  | zero =>
    intro ts rl hfound hmem hlen
    match ts, hlen with
    | [t], _ =>
      obtain ⟨hle, hlt⟩ := hmem t (by simp)
      have hstep := allow_step_zero rl k t t0 (by exact_mod_cast hfound) (by omega)
      simp [allowSeq, hstep, lookupB_setBucket_self]
  | succ j ih =>
    intro ts rl hfound hmem hlen
    match ts, hlen with
    | t :: ts', hlen =>
      obtain ⟨hle, hlt⟩ := hmem t (by simp)
      have hstep := allow_step_pos rl k t ((j : Int) + 1) t0
        (by exact_mod_cast hfound) (by omega) (by omega)
      set rl' : RateLimiter :=
        { rl with buckets := setBucket rl.buckets k ⟨(j : Int) + 1 - 1, t0⟩ } with hrl'
      have hfound' : lookupB rl'.buckets k = some ⟨(j : Int), t0⟩ := by
        have : ((j : Int) + 1 - 1) = (j : Int) := by ring
        simp [hrl', lookupB_setBucket_self, this]
      have hmem' : ∀ s ∈ ts', t0 ≤ s ∧ s < t0 + rl'.window := by
        intro s hs
        exact hmem s (by simp [hs])
      have hlen' : ts'.length = j + 1 := by simpa using hlen
      obtain ⟨hres, hmax, hwin, hfinal⟩ := ih ts' rl' hfound' hmem' hlen'
      have hW' : rl'.window = rl.window := rfl
      have hrun : allowSeq rl k (t :: ts') =
          (((true, (j : Int) + 1 - 1, t0 + rl.window)) :: (allowSeq rl' k ts').1,
            (allowSeq rl' k ts').2) := by
        simp [allowSeq, hstep, hrl']
      refine ⟨?_, ?_, ?_, ?_⟩
      · rw [hrun]
        simp only []
        rw [hres, hW']
        rw [List.range_succ_eq_map, List.map_cons, List.map_map, List.cons_append]
        refine congrArg₂ List.cons ?_ (congrArg₂ (· ++ ·) ?_ rfl)
        · simp only [Prod.mk.injEq]
          refine ⟨trivial, ?_, trivial⟩
          push_cast
          ring
        · apply List.map_congr_left
          intro i _
          simp only [Function.comp_apply, Prod.mk.injEq]
          refine ⟨trivial, ?_, trivial⟩
          push_cast
          ring
      · rw [hrun]; exact hmax
      · rw [hrun]; exact hwin
      · rw [hrun]; exact hfinal

/-- C2. For a limiter with `max = N ≥ 1` and positive window `W`, and a key
with no existing bucket: a run of `N + 1` calls starting at `t0` and all
inside `[t0, t0 + W)` admits the first `N` with remaining
`N-1, N-2, ..., 0`, denies the `(N+1)`-th with remaining `0`, and any later
call at `t' ≥ t0 + W` is admitted again with remaining `N - 1`; every
reported reset time equals the current window start plus the window length. -/
theorem ratelimit_window_behavior (rl : RateLimiter) (k : String) (N : Nat)
    (t0 t' : Int) (rest : List Int)
    (hmax : rl.max = (N : Int)) (hN : 1 ≤ N) (hW : 0 < rl.window)
    (hfresh : lookupB rl.buckets k = none)
    (hrest : ∀ t ∈ rest, t0 ≤ t ∧ t < t0 + rl.window)
    (hlen : rest.length = N) (ht' : t0 + rl.window ≤ t') :
    (allowSeq rl k (t0 :: rest)).1 =
      ((List.range N).map fun (i : Nat) =>
        (true, (N : Int) - 1 - (i : Int), t0 + rl.window)) ++
        [(false, 0, t0 + rl.window)] ∧
    (allow (allowSeq rl k (t0 :: rest)).2 k t').1
      = (true, (N : Int) - 1, t' + rl.window) := by
  obtain ⟨m, rfl⟩ : ∃ m, N = m + 1 := ⟨N - 1, by omega⟩
  have hM : 0 < rl.max := by rw [hmax]; positivity
  have hstep := allow_fresh rl k t0 hfresh hW hM
  set rl1 : RateLimiter :=
    { rl with buckets := setBucket rl.buckets k ⟨rl.max - 1, t0⟩ } with hrl1
  have hfound1 : lookupB rl1.buckets k = some ⟨(m : Int), t0⟩ := by
    have : rl.max - 1 = (m : Int) := by rw [hmax]; push_cast; ring
    simp [hrl1, lookupB_setBucket_self, this]
  have hmem1 : ∀ t ∈ rest, t0 ≤ t ∧ t < t0 + rl1.window := hrest
  obtain ⟨hres, hmax1, hwin1, hfinal⟩ :=
    allowSeq_drain k t0 m rest rl1 hfound1 hmem1 hlen
  have hrun : allowSeq rl k (t0 :: rest) =
      ((true, rl.max - 1, t0 + rl.window) :: (allowSeq rl1 k rest).1,
        (allowSeq rl1 k rest).2) := by
    simp [allowSeq, hstep, hrl1]
  constructor
  · rw [hrun]
    simp only []
    rw [hres]
    have hw1 : rl1.window = rl.window := rfl
    rw [hw1, List.range_succ_eq_map, List.map_cons, List.map_map, List.cons_append]
    refine congrArg₂ List.cons ?_ (congrArg₂ (· ++ ·) ?_ rfl)
    · simp only [Prod.mk.injEq]
      refine ⟨trivial, ?_, trivial⟩
      rw [hmax]
      push_cast
      ring
    · apply List.map_congr_left
      intro i _
      simp only [Function.comp_apply, Prod.mk.injEq]
      refine ⟨trivial, ?_, trivial⟩
      push_cast
      ring
  · rw [hrun]
    simp only []
    have hM' : 0 < (allowSeq rl1 k rest).2.max := by rw [hmax1]; exact hM
    have hwin' : t' - t0 ≥ (allowSeq rl1 k rest).2.window := by
      rw [hwin1]; change t' - t0 ≥ rl.window; omega
    have := allow_rollover (allowSeq rl1 k rest).2 k t' 0 t0 hfinal hwin' hM'
    rw [this]
    simp only []
    rw [hmax1, hwin1]
    have h2 : rl1.max = rl.max := rfl
    have h3 : rl1.window = rl.window := rfl
    rw [h2, h3, hmax]

/-- Witness for `ratelimit_window_behavior`: `max = 2`, `window = 100`,
three calls at `0, 10, 20` and a post-window call at `150`. -/
theorem ratelimit_window_behavior_witness :
    (allowSeq { buckets := [], max := 2, window := 100 } "k" [0, 10, 20]).1 =
      ((List.range 2).map fun (i : Nat) =>
        (true, (2 : Int) - 1 - (i : Int), (0 : Int) + 100)) ++
        [(false, 0, (0 : Int) + 100)] ∧
    (allow (allowSeq { buckets := [], max := 2, window := 100 } "k" [0, 10, 20]).2
        "k" 150).1 = (true, (2 : Int) - 1, 150 + 100) :=
  ratelimit_window_behavior { buckets := [], max := 2, window := 100 } "k" 2 0 150
    [10, 20] (by decide) (by decide) (by decide) (by decide)
    (by intro t ht; fin_cases ht <;> constructor <;> decide) (by decide) (by decide)

/-! ## Duration formatting and the middleware response (`ratelimit.go` 151-183) -/

/-- Models the fraction-printing loop `fmtFrac` of Go's
`time.Duration.String`: emit up to `prec` fractional digits (least
significant first), omitting trailing zeros, prefixing a decimal point only
when at least one digit is kept; returns the remaining integer part. -/
def fmtFracAux : Nat → Nat → Bool → String → String × Nat
  | v, 0, print, acc => ((if print then "." ++ acc else ""), v)
  | v, prec + 1, print, acc =>
      let digit := v % 10
      let keep := print || decide (digit ≠ 0)
      fmtFracAux (v / 10) prec keep (if keep then toString digit ++ acc else acc)

/-- Entry point of the `fmtFrac` model. -/
def fmtFrac (v : Nat) (prec : Nat) : String × Nat := fmtFracAux v prec false ""

/-- Models Go's `time.Duration.String()` on a nanosecond count: sub-second
durations use `ns`/`µs`/`ms` with trailing-zero-free fractions, larger ones
use `h`/`m`/`s`, `0` prints as `0s`, negatives get a leading minus. -/
def goDurationString (d : Int) : String :=
  let u := d.natAbs
  let core :=
    if u = 0 then "0s"
    else if u < 1000000000 then
      if u < 1000 then toString u ++ "ns"
      else if u < 1000000 then
        let fv := fmtFrac u 3
        toString fv.2 ++ fv.1 ++ "µs"
      else
        let fv := fmtFrac u 6
        toString fv.2 ++ fv.1 ++ "ms"
    else
      let fv := fmtFrac u 9
      let v := fv.2
      let s0 := toString (v % 60) ++ fv.1 ++ "s"
      let v1 := v / 60
      if v1 = 0 then s0
      else
        let s1 := toString (v1 % 60) ++ "m" ++ s0
        let v2 := v1 / 60
        if v2 = 0 then s1 else toString v2 ++ "h" ++ s1
  if d < 0 ∧ u ≠ 0 then "-" ++ core else core

/-- Models `int(time.Until(resetTime).Seconds())` from `ratelimit.go`
line 171: the nanosecond gap to the reset time, converted to seconds and
truncated toward zero (Go's float-to-int conversion), with the handler's
clock reading idealized to the same instant as the admit call's. -/
def retryAfterSeconds (resetTime now : Int) : Int :=
  Int.tdiv (resetTime - now) 1000000000

/-- Configuration fields of `RateLimiterConfig` that the request handler in
`RateLimitWithConfig` reads (`Headers`, `StatusCode`, `ErrorMessage`). -/
structure RateLimiterConfig where
  headers : Bool
  statusCode : Int
  errorMessage : String
deriving Repr, DecidableEq

/-- The denial body of `ratelimit.go` lines 172-177: a JSON object with the
error message, the limit, the window as a duration string, and the reset
time (the stdlib RFC3339 rendering of `retryAt` is abstracted as the
timestamp it renders). -/
structure DenialPayload where
  error : String
  limit : Int
  window : String
  retryAt : Int
deriving Repr, DecidableEq

/-- Observable outcome of one pass through the rate-limit middleware:
response headers set, the abort status/body if denied, and whether the
chain was aborted instead of continued via `c.Next()`. -/
structure RLResponse where
  headers : List (String × String)
  status : Option Int
  payload : Option DenialPayload
  aborted : Bool
deriving Repr, DecidableEq

/-- Embeds the request handler returned by `RateLimitWithConfig`
(`ratelimit.go` lines 151-182), minus the skip hook: consult `allow`; if
`Headers` is enabled attach `X-RateLimit-Limit`, `X-RateLimit-Remaining`,
and `X-RateLimit-Reset` (reset time in Unix seconds); on denial attach
`Retry-After` (unconditionally) and abort with the configured status and
the denial payload, otherwise continue the chain. -/
def rateLimitStep (rl : RateLimiter) (cfg : RateLimiterConfig) (key : String)
    (now : Int) : RLResponse × RateLimiter :=
  let ar := allow rl key now
  let allowed := ar.1.1
  let remaining := ar.1.2.1
  let resetTime := ar.1.2.2
  let hdrs := if cfg.headers then
      [("X-RateLimit-Limit", toString rl.max),
       ("X-RateLimit-Remaining", toString remaining),
       ("X-RateLimit-Reset", toString (Int.ediv resetTime 1000000000))]
    else []
  if allowed then
    ({ headers := hdrs, status := none, payload := none, aborted := false }, ar.2)
  else
    ({ headers := hdrs ++
         [("Retry-After", toString (retryAfterSeconds resetTime now))],
       status := some cfg.statusCode,
       payload := some { error := cfg.errorMessage, limit := rl.max,
                         window := goDurationString rl.window,
                         retryAt := resetTime },
       aborted := true }, ar.2)

/-- Helper: with tokens exhausted but `tokens ≤ 0` in general, a within-window
call is denied and reports `lastReset + window`. -/
theorem allow_step_nonpos (rl : RateLimiter) (k : String) (t : Int) (b : Bucket)
    (hfound : lookupB rl.buckets k = some b)
    (hwin : t - b.lastReset < rl.window)
    (htok : b.tokens ≤ 0) :
    allow rl k t =
      ((false, 0, b.lastReset + rl.window),
       { rl with buckets := setBucket rl.buckets k b }) := by
  have hroll : ¬ (t - b.lastReset ≥ rl.window) := by omega
  have hpos : ¬ (b.tokens > 0) := by omega
  simp [allow, hfound, hroll, hpos]

/-- Helper: when the configured `max` is positive, a denial can only come
from an existing bucket with exhausted tokens inside its current window. -/
theorem allow_denied_inv (rl : RateLimiter) (k : String) (now : Int)
    (hM : 1 ≤ rl.max) (hden : (allow rl k now).1.1 = false) :
    ∃ b, lookupB rl.buckets k = some b ∧ b.tokens ≤ 0 ∧
      now - b.lastReset < rl.window := by
  have hpos : rl.max > 0 := by omega
  cases hlk : lookupB rl.buckets k with
  | none =>
    simp [allow, hlk, hpos] at hden
  | some b =>
    by_cases hroll : now - b.lastReset ≥ rl.window
    · exfalso
      have := allow_rollover rl k now b.tokens b.lastReset hlk hroll hpos
      rw [this] at hden
      simp at hden
    · by_cases htok : b.tokens > 0
      · exfalso
        have := allow_step_pos rl k now b.tokens b.lastReset hlk (by omega) htok
        rw [this] at hden
        simp at hden
      · exact ⟨b, rfl, by omega, by omega⟩

/-- C7. On every denied admit call (with a positive configured `max`), the
`Retry-After` header value equals the gap from the call's clock reading to
the reset time in whole seconds, which is exactly `reset-at - now` floored
at zero (and in particular never negative), and the denial payload names
the limit, the window (as a duration string), and the reset time. -/
theorem ratelimit_denial_retry_hint (rl : RateLimiter) (cfg : RateLimiterConfig)
    (key : String) (now : Int) (hM : 1 ≤ rl.max)
    (hden : (allow rl key now).1.1 = false) :
    List.lookup "Retry-After" (rateLimitStep rl cfg key now).1.headers
      = some (toString (retryAfterSeconds (allow rl key now).1.2.2 now)) ∧
    retryAfterSeconds (allow rl key now).1.2.2 now
      = max 0 (Int.fdiv ((allow rl key now).1.2.2 - now) 1000000000) ∧
    0 ≤ retryAfterSeconds (allow rl key now).1.2.2 now ∧
    (rateLimitStep rl cfg key now).1.payload
      = some { error := cfg.errorMessage, limit := rl.max,
               window := goDurationString rl.window,
               retryAt := (allow rl key now).1.2.2 } := by
  obtain ⟨b, hlk, htok, hwin⟩ := allow_denied_inv rl key now hM hden
  have hstep := allow_step_nonpos rl key now b hlk hwin htok
  have hreset : (allow rl key now).1.2.2 = b.lastReset + rl.window := by rw [hstep]
  have hnonneg : 0 ≤ (allow rl key now).1.2.2 - now := by rw [hreset]; omega
  have heq : retryAfterSeconds (allow rl key now).1.2.2 now
      = max 0 (Int.fdiv ((allow rl key now).1.2.2 - now) 1000000000) := by
    unfold retryAfterSeconds
    rw [Int.tdiv_eq_ediv hnonneg (by norm_num),
      Int.fdiv_eq_ediv _ (by norm_num),
      max_eq_right (Int.ediv_nonneg hnonneg (by norm_num))]
  have h0 : 0 ≤ retryAfterSeconds (allow rl key now).1.2.2 now :=
    Int.tdiv_nonneg hnonneg (by norm_num)
  refine ⟨?_, heq, h0, ?_⟩
  · simp only [rateLimitStep, hden, Bool.false_eq_true, if_false]
    by_cases hh : cfg.headers
    · simp only [hh, if_true]
      rfl
    · simp only [hh, if_false]
      rfl
  · simp only [rateLimitStep, hden, Bool.false_eq_true, if_false]

/-- Concrete limiter state with an exhausted bucket, used by witnesses. -/
def rlExhausted : RateLimiter :=
  { buckets := [("k", ⟨0, 0⟩)], max := 3, window := 1000000000 }

/-- Concrete middleware configuration used by witnesses. -/
def cfgHeadersOn : RateLimiterConfig :=
  { headers := true, statusCode := 429, errorMessage := "Rate limit exceeded" }

/-- Witness for `ratelimit_denial_retry_hint` on a concrete denied call. -/
theorem ratelimit_denial_retry_hint_witness :
    List.lookup "Retry-After" (rateLimitStep rlExhausted cfgHeadersOn "k" 1).1.headers
      = some (toString (retryAfterSeconds (allow rlExhausted "k" 1).1.2.2 1)) ∧
    retryAfterSeconds (allow rlExhausted "k" 1).1.2.2 1
      = max 0 (Int.fdiv ((allow rlExhausted "k" 1).1.2.2 - 1) 1000000000) ∧
    0 ≤ retryAfterSeconds (allow rlExhausted "k" 1).1.2.2 1 ∧
    (rateLimitStep rlExhausted cfgHeadersOn "k" 1).1.payload
      = some { error := cfgHeadersOn.errorMessage, limit := rlExhausted.max,
               window := goDurationString rlExhausted.window,
               retryAt := (allow rlExhausted "k" 1).1.2.2 } :=
  ratelimit_denial_retry_hint rlExhausted cfgHeadersOn "k" 1 (by decide) (by decide)

/-- Concrete middleware configuration with the header toggle disabled. -/
def cfgHeadersOff : RateLimiterConfig :=
  { headers := false, statusCode := 429, errorMessage := "Rate limit exceeded" }

/-- C8 counterexample: with the headers toggle disabled, a denied request
still gets a `Retry-After` header, so the middleware does not attach "none"
of the informational headers. -/
theorem ratelimit_headers_toggle_counterexample :
    (rateLimitStep rlExhausted cfgHeadersOff "k" 1).1.headers
      = [("Retry-After", "0")] := by decide

/-- C8 as amended: when the toggle is enabled the three `X-RateLimit-*`
headers are attached to every response and `Retry-After` is additionally
attached on denial; when the toggle is disabled the three `X-RateLimit-*`
headers are omitted, but `Retry-After` is still attached on every denial. -/
theorem ratelimit_headers_toggle (rl : RateLimiter) (cfg : RateLimiterConfig)
    (key : String) (now : Int) :
    (rateLimitStep rl cfg key now).1.headers.map Prod.fst =
      (if cfg.headers then
        ["X-RateLimit-Limit", "X-RateLimit-Remaining", "X-RateLimit-Reset"]
       else []) ++
      (if (allow rl key now).1.1 = false then ["Retry-After"] else []) := by
  cases ha : (allow rl key now).1.1 <;> cases hh : cfg.headers <;>
    simp [rateLimitStep, ha, hh]

/-! ## Lock discipline of `allow` (`ratelimit.go` lines 187-219) -/

/-- The lock and mutation events `allow` performs on shared state. -/
inductive LockEvent where
  | acquireDir
  | releaseDir
  | acquireBucket
  | releaseBucket
  | createBucket
  | checkDecrement
deriving DecidableEq, Repr

/-- Embeds the order of lock operations in `allow`: `rl.mu.Lock()` with a
deferred `rl.mu.Unlock()`, optional bucket creation, `b.mu.Lock()` with a
deferred `b.mu.Unlock()`, then the check-then-decrement; Go runs deferred
calls in LIFO order, so the bucket lock is released before the directory
lock at function return. -/
def allowLockTrace (bucketExists : Bool) : List LockEvent :=
  [LockEvent.acquireDir] ++
  (if bucketExists then [] else [LockEvent.createBucket]) ++
  [LockEvent.acquireBucket, LockEvent.checkDecrement,
   LockEvent.releaseBucket, LockEvent.releaseDir]

/-- Whether a lock with the given acquire/release events is held when the
event `ev` occurs in the trace. -/
def heldDuring (tr : List LockEvent) (acq rel ev : LockEvent) : Bool :=
  decide (tr.findIdx (· == acq) < tr.findIdx (· == ev)) &&
  decide (tr.findIdx (· == ev) < tr.findIdx (· == rel))

/-- C9 counterexample: on a call that finds an existing bucket — a call with
no bucket-creation path at all — the directory lock is nevertheless held
across the check-then-decrement, so it is not "held only for the brief
bucket-creation path" and admit calls for distinct keys serialize through
it. -/
theorem ratelimit_lock_scope_counterexample :
    heldDuring (allowLockTrace true) LockEvent.acquireDir LockEvent.releaseDir
      LockEvent.checkDecrement = true ∧
    LockEvent.createBucket ∉ allowLockTrace true := by decide

/-- C9 as amended: the check-then-decrement is protected by the per-bucket
lock, but the exclusive directory lock is also held for the entire admit
call — creation path or not — so all admit calls, including those for
distinct keys, serialize through the directory lock. -/
theorem ratelimit_lock_discipline (bucketExists : Bool) :
    heldDuring (allowLockTrace bucketExists) LockEvent.acquireBucket
      LockEvent.releaseBucket LockEvent.checkDecrement = true ∧
    heldDuring (allowLockTrace bucketExists) LockEvent.acquireDir
      LockEvent.releaseDir LockEvent.checkDecrement = true := by
  cases bucketExists <;> decide

/-! ## Rate-limit key derivation (`ratelimit.go` lines 71-108, `auth.go` `isIPInCIDR`) -/

/-- Splitting a character list at every occurrence of a separator, with the
semantics of Go's `strings.Split` for one-character separators. -/
def splitOnChar (sep : Char) : List Char → List (List Char)
  | [] => [[]]
  | c :: rest =>
    match splitOnChar sep rest with
    | [] => if c = sep then [[], []] else [[c]]
    | g :: gs => if c = sep then [] :: g :: gs else (c :: g) :: gs

/-- Models one dotted-quad component accepted by the Go standard library's
`net.ParseIP` for IPv4: a non-empty run of at most three digits with no
leading zero, of value at most 255. -/
def parseDecOctet (cs : List Char) : Option Nat :=
  if cs.isEmpty then none
  else if ¬ cs.all Char.isDigit then none
  else if 1 < cs.length ∧ cs.head? = some '0' then none
  else if 3 < cs.length then none
  else
    let v := cs.foldl (fun a c => a * 10 + (c.toNat - 48)) 0
    if v ≤ 255 then some v else none

/-- Models `net.ParseIP` restricted to IPv4 dotted-quad addresses, returning
the address as a 32-bit value; other shapes (including IPv6) parse to
`none`. -/
def parseIPv4 (s : String) : Option Nat :=
  match (splitOnChar '.' s.toList).mapM parseDecOctet with
  | some [a, b, c, d] => some (((a * 256 + b) * 256 + c) * 256 + d)
  | _ => none

/-- Models the prefix-length parse of `net.ParseCIDR` for IPv4: a non-empty
digit run of at most two digits, value at most 32. -/
def parsePrefixLen (cs : List Char) : Option Nat :=
  if cs.isEmpty ∨ ¬ cs.all Char.isDigit ∨ 2 < cs.length then none
  else
    let v := cs.foldl (fun a c => a * 10 + (c.toNat - 48)) 0
    if v ≤ 32 then some v else none

/-- Models `net.ParseCIDR` for IPv4: split at the slash, parse the base
address and the prefix length. -/
def parseCIDR (s : String) : Option (Nat × Nat) :=
  match splitOnChar '/' s.toList with
  | [ipPart, maskPart] =>
    match parseIPv4 (String.mk ipPart), parsePrefixLen maskPart with
    | some ip, some n => some (ip, n)
    | _, _ => none
  | _ => none

/-- Models `(*net.IPNet).Contains` for IPv4: the address agrees with the
network base on the first `bits` bits. -/
def cidrContains (base bits addr : Nat) : Bool :=
  decide (base / 2 ^ (32 - bits) = addr / 2 ^ (32 - bits))

/-- Embeds the port-stripping step of `isIPInCIDR` (`auth.go`): drop
everything from the last colon on, when a colon is present. -/
def stripPort (s : String) : String :=
  let cs := s.toList
  let r := cs.reverse
  let i := r.findIdx (· == ':')
  if i < r.length then String.mk (cs.take (cs.length - 1 - i)) else s

/-- Embeds `isIPInCIDR` from `auth.go` lines 308-318: if the trusted-proxy
entry is not a CIDR, fall back to exact string match; otherwise strip a port
from the peer address, parse it, and test CIDR containment. -/
def isIPInCIDR (ipStr cidr : String) : Bool :=
  match parseCIDR cidr with
  | none => ipStr == cidr
  | some (base, bits) =>
    match parseIPv4 (stripPort ipStr) with
    | none => false
    | some addr => cidrContains base bits addr

/-- Embeds the first-hop extraction of `keyFuncWithTrustedProxies`: the
substring before the first comma, trimmed, or the whole value when no comma
is present. -/
def firstForwardedIP (xff : String) : String :=
  match xff.splitOn "," with
  | x :: _ :: _ => x.trim
  | _ => xff

/-- Embeds `defaultKeyFunc` from `ratelimit.go` lines 72-75: the raw peer
address. -/
def defaultKeyFunc (remoteAddr : String) : String := remoteAddr

/-- Embeds `keyFuncWithTrustedProxies` from `ratelimit.go` lines 78-107:
trust `X-Forwarded-For` (first hop) then `X-Real-IP` only when the peer
address matches a trusted-proxy entry exactly or by CIDR containment;
otherwise the key is the peer address itself. -/
def keyFuncWithTrustedProxies (trustedProxies : List String) (remoteAddr : String)
    (header : String → String) : String :=
  let isTrusted := trustedProxies.any fun proxy =>
    remoteAddr == proxy || isIPInCIDR remoteAddr proxy
  if isTrusted then
    let ip := header "X-Forwarded-For"
    if ip ≠ "" then firstForwardedIP ip
    else
      let ip2 := header "X-Real-IP"
      if ip2 ≠ "" then ip2 else remoteAddr
  else remoteAddr

/-- C6. When the peer address matches no trusted-proxy entry (neither
exactly nor by CIDR containment), the rate-limit key is the peer address,
whatever the `X-Forwarded-For` / `X-Real-IP` headers say; in particular two
requests from that peer differing only in headers get the same key. -/
theorem untrusted_peer_key_ignores_headers (trustedProxies : List String)
    (remoteAddr : String) (hdrs1 hdrs2 : String → String)
    (h : ∀ proxy ∈ trustedProxies, remoteAddr ≠ proxy ∧
         isIPInCIDR remoteAddr proxy = false) :
    keyFuncWithTrustedProxies trustedProxies remoteAddr hdrs1 = remoteAddr ∧
    keyFuncWithTrustedProxies trustedProxies remoteAddr hdrs1 =
      keyFuncWithTrustedProxies trustedProxies remoteAddr hdrs2 := by
  have hta : (trustedProxies.any fun proxy =>
      remoteAddr == proxy || isIPInCIDR remoteAddr proxy) = false := by
    rw [List.any_eq_false]
    intro p hp
    obtain ⟨h1, h2⟩ := h p hp
    simp [h1, h2]
  constructor <;> simp [keyFuncWithTrustedProxies, hta]

/-- Witness for `untrusted_peer_key_ignores_headers`: a peer outside the
allow-list keeps its own address as key despite a spoofed forwarded-for
header. -/
theorem untrusted_peer_key_ignores_headers_witness :
    keyFuncWithTrustedProxies ["10.0.0.0/8", "192.168.1.1"] "203.0.113.9:4242"
      (fun h => if h == "X-Forwarded-For" then "1.1.1.1" else "") = "203.0.113.9:4242" ∧
    keyFuncWithTrustedProxies ["10.0.0.0/8", "192.168.1.1"] "203.0.113.9:4242"
      (fun h => if h == "X-Forwarded-For" then "1.1.1.1" else "") =
    keyFuncWithTrustedProxies ["10.0.0.0/8", "192.168.1.1"] "203.0.113.9:4242"
      (fun _ => "") :=
  untrusted_peer_key_ignores_headers ["10.0.0.0/8", "192.168.1.1"] "203.0.113.9:4242"
    (fun h => if h == "X-Forwarded-For" then "1.1.1.1" else "") (fun _ => "")
    (by decide)

/-! ## Deadline executor (`timeout.go`) -/

/-- Embeds `bufferedResponseWriter` (`timeout.go` lines 14-18): an in-memory
header map (association list with one entry per key, like `http.Header`),
an accumulating body buffer, and a status code. -/
structure BufferedResponseWriter where
  header : List (String × List String)
  buf : String
  status : Int
deriving Repr, DecidableEq

/-- Embeds `newBufferedResponseWriter` (`timeout.go` lines 20-26). -/
def newBufferedResponseWriter : BufferedResponseWriter :=
  { header := [], buf := "", status := 200 }

/-- Embeds `(*bufferedResponseWriter).Write`: append to the buffer. -/
def bufWrite (w : BufferedResponseWriter) (b : String) : BufferedResponseWriter :=
  { w with buf := w.buf ++ b }

/-- Embeds `(*bufferedResponseWriter).WriteHeader`: record the status. -/
def bufWriteHeader (w : BufferedResponseWriter) (statusCode : Int) :
    BufferedResponseWriter :=
  { w with status := statusCode }

/-- One operation performed on the real response sink
(`http.ResponseWriter`): `Header().Set`, `Header().Add`, `WriteHeader`, or
`Write`. -/
inductive SinkEvent where
  | setHeader (k v : String)
  | addHeader (k v : String)
  | writeHeader (status : Int)
  | write (body : String)
deriving Repr, DecidableEq

/-- The real response sink, recorded as the sequence of operations
performed on it. -/
structure Sink where
  events : List SinkEvent
deriving Repr, DecidableEq

/-- A sink nothing has been written to yet. -/
def emptySink : Sink := { events := [] }

/-- Embeds `(*bufferedResponseWriter).copyTo` (`timeout.go` lines 41-52):
`Add` every buffered header value onto the destination (additive,
multi-value safe), then write the buffered status, then the buffered
body. -/
def copyTo (w : BufferedResponseWriter) (dst : Sink) : Sink :=
  { events := dst.events ++
      (w.header.flatMap fun p => p.2.map fun v => SinkEvent.addHeader p.1 v) ++
      [SinkEvent.writeHeader w.status, SinkEvent.write w.buf] }

/-- The statuses passed to `WriteHeader` calls in an event list, in order;
one `WriteHeader` is one response commitment on the real connection. -/
def statusEventsOf : List SinkEvent → List Int
  | [] => []
  | SinkEvent.writeHeader c :: rest => c :: statusEventsOf rest
  | _ :: rest => statusEventsOf rest

/-- The statuses written to a sink. -/
def statusWrites (s : Sink) : List Int := statusEventsOf s.events

/-- The body chunks passed to `Write` calls in an event list, in order. -/
def bodyEventsOf : List SinkEvent → List String
  | [] => []
  | SinkEvent.write b :: rest => b :: bodyEventsOf rest
  | _ :: rest => bodyEventsOf rest

/-- The body chunks written to a sink. -/
def bodyWrites (s : Sink) : List String := bodyEventsOf s.events

/-- The effect of one sink operation on the final header map
(`Set` replaces, `Add` appends, status/body writes leave headers alone). -/
def applyEvent (h : String → List String) : SinkEvent → String → List String
  | SinkEvent.setHeader k v => fun k' => if k' = k then [v] else h k'
  | SinkEvent.addHeader k v => fun k' => if k' = k then h k' ++ [v] else h k'
  | _ => h

/-- The final header map of a sink after all its operations. -/
def finalHeader (s : Sink) : String → List String :=
  s.events.foldl applyEvent fun _ => []

/-- Lookup in a buffered header map (Go `http.Header` map access). -/
def headerValues : List (String × List String) → String → List String
  | [], _ => []
  | (k', vs) :: rest, k => if k' = k then vs else headerValues rest k

/-! ### Sink bookkeeping lemmas -/

theorem statusEventsOf_append (xs ys : List SinkEvent) :
    statusEventsOf (xs ++ ys) = statusEventsOf xs ++ statusEventsOf ys := by
  induction xs with
  | nil => rfl
  | cons e rest ih => cases e <;> simp [statusEventsOf, ih]

theorem bodyEventsOf_append (xs ys : List SinkEvent) :
    bodyEventsOf (xs ++ ys) = bodyEventsOf xs ++ bodyEventsOf ys := by
  induction xs with
  | nil => rfl
  | cons e rest ih => cases e <;> simp [bodyEventsOf, ih]

theorem statusEventsOf_addHeader_map (k : String) (vs : List String) :
    statusEventsOf (vs.map fun v => SinkEvent.addHeader k v) = [] := by
  induction vs with
  | nil => rfl
  | cons v vs ih => simpa [statusEventsOf] using ih

theorem bodyEventsOf_addHeader_map (k : String) (vs : List String) :
    bodyEventsOf (vs.map fun v => SinkEvent.addHeader k v) = [] := by
  induction vs with
  | nil => rfl
  | cons v vs ih => simpa [bodyEventsOf] using ih

theorem statusEventsOf_addHeaders (hl : List (String × List String)) :
    statusEventsOf (hl.flatMap fun p => p.2.map fun v => SinkEvent.addHeader p.1 v)
      = [] := by
  induction hl with
  | nil => rfl
  | cons p rest ih =>
    simp [List.flatMap_cons, statusEventsOf_append, statusEventsOf_addHeader_map, ih]

theorem bodyEventsOf_addHeaders (hl : List (String × List String)) :
    bodyEventsOf (hl.flatMap fun p => p.2.map fun v => SinkEvent.addHeader p.1 v)
      = [] := by
  induction hl with
  | nil => rfl
  | cons p rest ih =>
    simp [List.flatMap_cons, bodyEventsOf_append, bodyEventsOf_addHeader_map, ih]

theorem foldl_addHeader_map (k : String) (vs : List String) (h : String → List String) :
    List.foldl applyEvent h (vs.map fun v => SinkEvent.addHeader k v)
      = fun k' => if k' = k then h k' ++ vs else h k' := by
  induction vs generalizing h with
  | nil =>
    funext k'
    by_cases hk : k' = k <;> simp [hk]
  | cons v vs ih =>
    simp only [List.map_cons, List.foldl_cons]
    rw [ih]
    funext k'
    by_cases hk : k' = k <;> simp [applyEvent, hk]

theorem headerValues_nil_of_not_mem (hl : List (String × List String)) (k : String)
    (hk : k ∉ hl.map Prod.fst) : headerValues hl k = [] := by
  induction hl with
  | nil => rfl
  | cons p rest ih =>
    simp only [List.map_cons, List.mem_cons] at hk
    push_neg at hk
    have : p.1 ≠ k := fun h => hk.1 h.symm
    cases p
    simp only [headerValues]
    rw [if_neg this]
    exact ih hk.2

theorem foldl_addHeaders (hl : List (String × List String))
    (hnodup : (hl.map Prod.fst).Nodup) (h : String → List String) (k : String) :
    (List.foldl applyEvent h
        (hl.flatMap fun p => p.2.map fun v => SinkEvent.addHeader p.1 v)) k
      = h k ++ headerValues hl k := by
  induction hl generalizing h with
  | nil => simp [headerValues]
  | cons p rest ih =>
    obtain ⟨k1, vs⟩ := p
    simp only [List.map_cons, List.nodup_cons] at hnodup
    obtain ⟨hk1, hrest⟩ := hnodup
    simp only [List.flatMap_cons, List.foldl_append]
    rw [foldl_addHeader_map]
    rw [ih hrest]
    by_cases hk : k = k1
    · subst hk
      simp only [if_pos rfl, headerValues, if_pos rfl]
      rw [headerValues_nil_of_not_mem rest k hk1]
      simp
    · have : ¬ (k = k1) := hk
      simp only [if_neg this, headerValues]
      rw [if_neg (fun h => hk h.symm)]

/-! ### JSON body rendering (`encoding/json` model) and executor -/

/-- Lower-case hexadecimal digit, used for control-character escapes. -/
def hexDigit (n : Nat) : Char :=
  if n < 10 then Char.ofNat (48 + n) else Char.ofNat (87 + n)

/-- Models the string escaping of Go's `encoding/json` with its default
HTML escaping: quotes, backslashes, newline/carriage-return/tab, other
control characters, `<`, `>`, `&`, and U+2028/U+2029. -/
def jsonEscapeChar (c : Char) : String :=
  if c = '"' then "\\\""
  else if c = '\\' then "\\\\"
  else if c = '\n' then "\\n"
  else if c = '\r' then "\\r"
  else if c = '\t' then "\\t"
  else if c = '<' then "\\u003c"
  else if c = '>' then "\\u003e"
  else if c = '&' then "\\u0026"
  else if c.toNat < 32 then
    String.mk ['\\', 'u', '0', '0', hexDigit (c.toNat / 16), hexDigit (c.toNat % 16)]
  else if c.toNat = 8232 then "\\u2028"
  else if c.toNat = 8233 then "\\u2029"
  else String.singleton c

/-- JSON escaping of a whole string. -/
def jsonEscape (s : String) : String :=
  String.join (s.toList.map jsonEscapeChar)

/-- A JSON string literal. -/
def jsonStr (s : String) : String := "\"" ++ jsonEscape s ++ "\""

/-- A JSON object with string values, fields in the given order (Go
marshals `map[string]any` keys in sorted order). -/
def jsonObj (fields : List (String × String)) : String :=
  "\x7b" ++
    String.intercalate "," (fields.map fun p => jsonStr p.1 ++ ":" ++ jsonStr p.2) ++
    "\x7d"

/-- Configuration fields of `TimeoutConfig` (`timeout.go` lines 55-68) read
by the handler after normalization: the budget in nanoseconds, the error
message, and the timeout status code. -/
structure TimeoutConfig where
  timeout : Int
  errorMessage : String
  statusCode : Int
deriving Repr, DecidableEq

/-- The fields of the synthesized timeout body (`timeout.go` lines 177-180):
`error` carrying the configured message and `timeout` carrying the
configured budget as a Go duration string; `error` sorts before `timeout`,
matching Go's map-key marshalling order. -/
def timeoutBodyFields (cfg : TimeoutConfig) : List (String × String) :=
  [("error", cfg.errorMessage), ("timeout", goDurationString cfg.timeout)]

/-- The rendered JSON timeout body. -/
def timeoutJSONBody (cfg : TimeoutConfig) : String :=
  jsonObj (timeoutBodyFields cfg)

/-- Why `ctx.Done()` fired: genuine deadline expiry
(`context.DeadlineExceeded`) or externally-triggered cancellation of the
parent request context (`context.Canceled`). -/
inductive CtxReason where
  | deadlineExceeded
  | canceled
deriving Repr, DecidableEq

/-- One resolution of the executor's `select` race: whether the completion
signal would win the race if it were sent, and why the deadline clock fired
otherwise. -/
structure RaceSched where
  taskWinsRace : Bool
  ctxReason : CtxReason
deriving Repr, DecidableEq

/-- Embeds the handler returned by `TimeoutWithConfig` (`timeout.go` lines
98-188), minus the skip hook.  `cont` is the guarded goroutine body — the
downstream chain `cp.Next()` acting on the fresh buffered writer — whose
second component records whether it panicked.  The goroutine closes `done`
only after `cont` returns normally: a panic skips `close(done)` and is
swallowed by the deferred `recover`, so the completion branch is reachable
only when the task wins the race AND did not panic.  On completion the
buffered response is copied verbatim onto the restored real sink; on
`ctx.Done()` the synthesized timeout response is written only when the
reason is genuine deadline expiry; externally-triggered cancellation writes
nothing.  Every branch calls `c.Abort()` (the returned Bool) so the current
chain is not re-invoked. -/
def runTimeout (cfg : TimeoutConfig)
    (cont : BufferedResponseWriter → BufferedResponseWriter × Bool)
    (sched : RaceSched) (realSink : Sink) : Sink × Bool :=
  let r := cont newBufferedResponseWriter
  if sched.taskWinsRace && !r.2 then
    (copyTo r.1 realSink, true)
  else
    match sched.ctxReason with
    | CtxReason.deadlineExceeded =>
      ({ events := realSink.events ++
          [SinkEvent.setHeader "Content-Type" "application/json",
           SinkEvent.writeHeader cfg.statusCode,
           SinkEvent.write (timeoutJSONBody cfg)] }, true)
    | CtxReason.canceled => (realSink, true)

/-- Concrete executor configuration used by witnesses and counterexamples:
the normalized defaults of `DefaultTimeoutConfig` (30s budget,
"Request timeout", 504). -/
def cfgTimeout : TimeoutConfig :=
  { timeout := 30000000000, errorMessage := "Request timeout", statusCode := 504 }

/-- C1 counterexample: under externally-triggered cancellation of the
request context (`ctx.Err() = context.Canceled`), the executor restores the
real sink and writes nothing — zero responses, not exactly one. -/
theorem timeout_exactly_one_response_counterexample :
    statusWrites (runTimeout cfgTimeout (fun b => (b, false))
      { taskWinsRace := false, ctxReason := CtxReason.canceled } emptySink).1 = [] ∧
    bodyWrites (runTimeout cfgTimeout (fun b => (b, false))
      { taskWinsRace := false, ctxReason := CtxReason.canceled } emptySink).1 = [] := by
  constructor <;> rfl

/-- C1 as amended: for every race outcome the executor commits at most one
response to the real sink, and exactly one except under externally-triggered
cancellation, where it commits none; the completion path and the timeout
path are never both taken. -/
theorem timeout_exactly_one_response (cfg : TimeoutConfig)
    (cont : BufferedResponseWriter → BufferedResponseWriter × Bool)
    (sched : RaceSched) :
    (statusWrites (runTimeout cfg cont sched emptySink).1).length =
      (if sched.taskWinsRace && !(cont newBufferedResponseWriter).2 then 1
       else if sched.ctxReason = CtxReason.deadlineExceeded then 1 else 0) := by
  cases hb : sched.taskWinsRace && !(cont newBufferedResponseWriter).2 with
  | false =>
    cases hr : sched.ctxReason <;>
      simp [runTimeout, hb, hr, statusWrites, statusEventsOf, emptySink]
  | true =>
    simp [runTimeout, hb, statusWrites, copyTo, emptySink, statusEventsOf_append,
      statusEventsOf_addHeaders, statusEventsOf]

/-- C3. Whenever the handler does not complete in time (the race is lost or
the task panicked), a response is written to the real sink if and only if
the reason is genuine deadline expiry, and that response carries the
configured status code and a JSON body whose fields are exactly `error`
(the configured message) and `timeout` (the configured budget as a duration
string), after a `Content-Type: application/json` header. -/
theorem timeout_expiry_response (cfg : TimeoutConfig)
    (cont : BufferedResponseWriter → BufferedResponseWriter × Bool)
    (sched : RaceSched)
    (hnc : sched.taskWinsRace = false ∨ (cont newBufferedResponseWriter).2 = true) :
    ((runTimeout cfg cont sched emptySink).1.events ≠ [] ↔
      sched.ctxReason = CtxReason.deadlineExceeded) ∧
    (sched.ctxReason = CtxReason.deadlineExceeded →
      (runTimeout cfg cont sched emptySink).1.events =
        [SinkEvent.setHeader "Content-Type" "application/json",
         SinkEvent.writeHeader cfg.statusCode,
         SinkEvent.write (jsonObj [("error", cfg.errorMessage),
           ("timeout", goDurationString cfg.timeout)])]) := by
  have hbr : (sched.taskWinsRace && !(cont newBufferedResponseWriter).2) = false := by
    rcases hnc with h | h <;> simp [h]
  cases hr : sched.ctxReason with
  | deadlineExceeded =>
    constructor
    · simp [runTimeout, hbr, hr, emptySink]
    · intro _
      simp [runTimeout, hbr, hr, emptySink, timeoutJSONBody, timeoutBodyFields]
  | canceled =>
    constructor
    · simp [runTimeout, hbr, hr, emptySink]
    · intro hcontra
      simp [hr] at hcontra

/-- Witness for `timeout_expiry_response`: a never-completing continuation
under a genuinely expired deadline yields the synthesized 504 JSON
response. -/
theorem timeout_expiry_response_witness :
    ((runTimeout cfgTimeout (fun b => (b, true))
        { taskWinsRace := false, ctxReason := CtxReason.deadlineExceeded }
        emptySink).1.events ≠ [] ↔
      ({ taskWinsRace := false, ctxReason := CtxReason.deadlineExceeded
         : RaceSched }).ctxReason = CtxReason.deadlineExceeded) ∧
    (({ taskWinsRace := false, ctxReason := CtxReason.deadlineExceeded
        : RaceSched }).ctxReason = CtxReason.deadlineExceeded →
      (runTimeout cfgTimeout (fun b => (b, true))
        { taskWinsRace := false, ctxReason := CtxReason.deadlineExceeded }
        emptySink).1.events =
        [SinkEvent.setHeader "Content-Type" "application/json",
         SinkEvent.writeHeader cfgTimeout.statusCode,
         SinkEvent.write (jsonObj [("error", cfgTimeout.errorMessage),
           ("timeout", goDurationString cfgTimeout.timeout)])]) :=
  timeout_expiry_response cfgTimeout (fun b => (b, true))
    { taskWinsRace := false, ctxReason := CtxReason.deadlineExceeded }
    (Or.inl rfl)

/-- C4. When the handler completes before the budget (and did not panic),
the executor copies the buffered response verbatim onto the real sink: the
status and body written are exactly the buffered ones, every buffered
header key keeps its full multi-value list, and the chain is aborted so
downstream steps are not re-invoked. -/
theorem timeout_completed_copies_buffer (cfg : TimeoutConfig)
    (cont : BufferedResponseWriter → BufferedResponseWriter × Bool)
    (sched : RaceSched) (buffered : BufferedResponseWriter) (k : String)
    (hrun : cont newBufferedResponseWriter = (buffered, false))
    (hwin : sched.taskWinsRace = true)
    (hnodup : (buffered.header.map Prod.fst).Nodup) :
    statusWrites (runTimeout cfg cont sched emptySink).1 = [buffered.status] ∧
    bodyWrites (runTimeout cfg cont sched emptySink).1 = [buffered.buf] ∧
    finalHeader (runTimeout cfg cont sched emptySink).1 k
      = headerValues buffered.header k ∧
    (runTimeout cfg cont sched emptySink).2 = true := by
  have hbranch : runTimeout cfg cont sched emptySink =
      (copyTo buffered emptySink, true) := by
    simp [runTimeout, hrun, hwin]
  rw [hbranch]
  refine ⟨?_, ?_, ?_, rfl⟩
  · simp [statusWrites, copyTo, emptySink, statusEventsOf_append,
      statusEventsOf_addHeaders, statusEventsOf]
  · simp [bodyWrites, copyTo, emptySink, bodyEventsOf_append,
      bodyEventsOf_addHeaders, bodyEventsOf]
  · show finalHeader (copyTo buffered emptySink) k = _
    simp only [finalHeader, copyTo, emptySink, List.nil_append, List.foldl_append,
      List.foldl_cons, List.foldl_nil]
    have h2 : ∀ (h : String → List String) (c : Int) (b : String),
        applyEvent (applyEvent h (SinkEvent.writeHeader c)) (SinkEvent.write b) = h :=
      fun _ _ _ => rfl
    rw [h2]
    have h3 := foldl_addHeaders buffered.header hnodup (fun _ => []) k
    simpa using h3

/-- Witness for `timeout_completed_copies_buffer` with a two-valued header
key. -/
theorem timeout_completed_copies_buffer_witness :
    statusWrites (runTimeout cfgTimeout
      (fun _ => ({ header := [("X-A", ["a", "b"]), ("X-B", ["c"])],
                   buf := "hi", status := 201 }, false))
      { taskWinsRace := true, ctxReason := CtxReason.deadlineExceeded }
      emptySink).1 = [201] ∧
    bodyWrites (runTimeout cfgTimeout
      (fun _ => ({ header := [("X-A", ["a", "b"]), ("X-B", ["c"])],
                   buf := "hi", status := 201 }, false))
      { taskWinsRace := true, ctxReason := CtxReason.deadlineExceeded }
      emptySink).1 = ["hi"] ∧
    finalHeader (runTimeout cfgTimeout
      (fun _ => ({ header := [("X-A", ["a", "b"]), ("X-B", ["c"])],
                   buf := "hi", status := 201 }, false))
      { taskWinsRace := true, ctxReason := CtxReason.deadlineExceeded }
      emptySink).1 "X-A"
      = headerValues [("X-A", ["a", "b"]), ("X-B", ["c"])] "X-A" ∧
    (runTimeout cfgTimeout
      (fun _ => ({ header := [("X-A", ["a", "b"]), ("X-B", ["c"])],
                   buf := "hi", status := 201 }, false))
      { taskWinsRace := true, ctxReason := CtxReason.deadlineExceeded }
      emptySink).2 = true :=
  timeout_completed_copies_buffer cfgTimeout
    (fun _ => ({ header := [("X-A", ["a", "b"]), ("X-B", ["c"])],
                 buf := "hi", status := 201 }, false))
    { taskWinsRace := true, ctxReason := CtxReason.deadlineExceeded }
    { header := [("X-A", ["a", "b"]), ("X-B", ["c"])], buf := "hi", status := 201 }
    "X-A" rfl rfl (by decide)

/-- C5 counterexample: a continuation that buffers a full response
(`status 200`, body `"hello"`) and then panics does NOT give the caller a
normal completion: `close(done)` is unreachable after the panic, so even
with the scheduler favoring the task the executor takes the deadline
branch and writes the synthesized timeout response, discarding the
buffered one. -/
theorem timeout_panic_counterexample :
    ((fun (b : BufferedResponseWriter) =>
        (bufWrite (bufWriteHeader b 200) "hello", true)) newBufferedResponseWriter).2
      = true ∧
    ((fun (b : BufferedResponseWriter) =>
        (bufWrite (bufWriteHeader b 200) "hello", true)) newBufferedResponseWriter).1.buf
      = "hello" ∧
    statusWrites (runTimeout cfgTimeout
      (fun b => (bufWrite (bufWriteHeader b 200) "hello", true))
      { taskWinsRace := true, ctxReason := CtxReason.deadlineExceeded }
      emptySink).1 = [504] ∧
    bodyWrites (runTimeout cfgTimeout
      (fun b => (bufWrite (bufWriteHeader b 200) "hello", true))
      { taskWinsRace := true, ctxReason := CtxReason.deadlineExceeded }
      emptySink).1 ≠ ["hello"] := by
  refine ⟨rfl, rfl, rfl, ?_⟩
  decide

/-- C5 as amended: a panic in the continuation is contained — the executor
still resolves, aborts the chain, and never propagates the fault — but the
caller then always experiences the deadline branch, whatever was buffered:
the synthesized timeout response on genuine expiry, or no response on
external cancellation; the buffered response of a panicking task is never
copied to the real sink. -/
theorem timeout_panic_contained (cfg : TimeoutConfig)
    (cont : BufferedResponseWriter → BufferedResponseWriter × Bool)
    (sched : RaceSched)
    (hp : (cont newBufferedResponseWriter).2 = true) :
    statusWrites (runTimeout cfg cont sched emptySink).1 =
      (if sched.ctxReason = CtxReason.deadlineExceeded then [cfg.statusCode] else []) ∧
    bodyWrites (runTimeout cfg cont sched emptySink).1 =
      (if sched.ctxReason = CtxReason.deadlineExceeded then [timeoutJSONBody cfg] else []) ∧
    (runTimeout cfg cont sched emptySink).2 = true := by
  have hbr : (sched.taskWinsRace && !(cont newBufferedResponseWriter).2) = false := by
    simp [hp]
  cases hr : sched.ctxReason <;>
    simp [runTimeout, hbr, hr, statusWrites, bodyWrites, statusEventsOf,
      bodyEventsOf, emptySink]

/-- Witness for `timeout_panic_contained` on a concrete panicking
continuation under external cancellation. -/
theorem timeout_panic_contained_witness :
    statusWrites (runTimeout cfgTimeout (fun b => (b, true))
      { taskWinsRace := true, ctxReason := CtxReason.canceled } emptySink).1 =
      (if ({ taskWinsRace := true, ctxReason := CtxReason.canceled
             : RaceSched }).ctxReason = CtxReason.deadlineExceeded
       then [cfgTimeout.statusCode] else []) ∧
    bodyWrites (runTimeout cfgTimeout (fun b => (b, true))
      { taskWinsRace := true, ctxReason := CtxReason.canceled } emptySink).1 =
      (if ({ taskWinsRace := true, ctxReason := CtxReason.canceled
             : RaceSched }).ctxReason = CtxReason.deadlineExceeded
       then [timeoutJSONBody cfgTimeout] else []) ∧
    (runTimeout cfgTimeout (fun b => (b, true))
      { taskWinsRace := true, ctxReason := CtxReason.canceled } emptySink).2 = true :=
  timeout_panic_contained cfgTimeout (fun b => (b, true))
    { taskWinsRace := true, ctxReason := CtxReason.canceled } rfl
